import Mathlib

/-!
Shallow embedding of `src/gr.c` from the reboundx repository (post-Newtonian
general-relativity corrections), together with theorems settling the frozen
claims about it.

Modelling conventions:

* C `double` values are modelled as exact rationals (`ℚ`).  Floating-point
  rounding, overflow and subnormals are outside the model; every claim below
  is about the exact arithmetic structure of the code.
* The C library call `sqrt` is an external function; it is modelled as an
  explicit function parameter `rsqrt : ℚ → ℚ` threaded through every
  definition that the source passes through `sqrt`.  All theorems hold for an
  arbitrary `rsqrt`, because claim and code apply the same function to the
  same argument.
* A `struct reb_particle` is modelled by `Particle`; only the fields read or
  written by `gr.c` are kept (position, velocity, mass, acceleration).
* The four heap buffers of `struct rebx_params_gr` are modelled as total
  functions `ℕ → Vec3` (the contents of the raw memory at each slot index),
  plus the `allocatedN` capacity field.  `realloc` preserves previous
  contents and leaves fresh memory arbitrary, which the function model
  represents by simply keeping the old function: theorems never rely on any
  value of these functions beyond what the code itself writes.
* `_N_real = sim->N - sim->N_var` is taken as the parameter `Nreal`;
  `sim->gravity_ignore_10` as the parameter `gi10 : Bool`;
  `sim->G` as `G` and `rebxparams->c` as the `c` field of `GrParams`.
* C's `isnormal(d)` test on `d = num/den` (line 263): in exact rational
  arithmetic the only expressible degeneracies are a zero denominator
  (C: `inf`/`nan`, not normal; ℚ: `num/0 = 0`) and `d = 0` (not normal).
  Hence `isnormal d` is modelled as `d ≠ 0`, which agrees with C on every
  value expressible in the exact model (subnormal/overflow thresholds have
  no exact-arithmetic counterpart).
-/

/-- Triple of rationals modelling `struct reb_vec3d`. -/
structure Vec3 where
  x : ℚ
  y : ℚ
  z : ℚ
deriving DecidableEq, Repr, Inhabited

/-- Componentwise addition of 3-vectors. -/
def Vec3.add (a b : Vec3) : Vec3 := ⟨a.x + b.x, a.y + b.y, a.z + b.z⟩

/-- Componentwise subtraction of 3-vectors. -/
def Vec3.sub (a b : Vec3) : Vec3 := ⟨a.x - b.x, a.y - b.y, a.z - b.z⟩

/-- Scalar multiple of a 3-vector. -/
def Vec3.smul (c : ℚ) (a : Vec3) : Vec3 := ⟨c * a.x, c * a.y, c * a.z⟩

/-- The zero vector. -/
def Vec3.zero : Vec3 := ⟨0, 0, 0⟩

/-- Model of `struct reb_particle` restricted to the fields `gr.c` touches:
position `x,y,z`, velocity `vx,vy,vz`, mass `m`, acceleration `ax,ay,az`. -/
structure Particle where
  x : ℚ
  y : ℚ
  z : ℚ
  vx : ℚ
  vy : ℚ
  vz : ℚ
  m : ℚ
  ax : ℚ
  ay : ℚ
  az : ℚ
deriving DecidableEq, Repr, Inhabited

/-- Add a vector to a particle's acceleration accumulator
(the `+=` writes on `ax,ay,az`). -/
def addA (p : Particle) (v : Vec3) : Particle :=
  { p with ax := p.ax + v.x, ay := p.ay + v.y, az := p.az + v.z }

/-- Subtract a vector from a particle's acceleration accumulator
(the `-=` writes on `ax,ay,az`). -/
def subA (p : Particle) (v : Vec3) : Particle :=
  { p with ax := p.ax - v.x, ay := p.ay - v.y, az := p.az - v.z }

/-- Correction vector of one iteration of the `rebx_gr` loop body
(`src/gr.c` lines 43-59): `dax,day,daz` as functions of the loop-invariant
copy `sun` of `particles[0]` and the current perturber `pI`. -/
def grDa (rsqrt : ℚ → ℚ) (G C : ℚ) (sun pI : Particle) : Vec3 :=
  let dx := pI.x - sun.x
  let dy := pI.y - sun.y
  let dz := pI.z - sun.z
  let r2 := dx * dx + dy * dy + dz * dz
  let r := rsqrt r2
  let dvx := pI.vx - sun.vx
  let dvy := pI.vy - sun.vy
  let dvz := pI.vz - sun.vz
  let alpha := G * sun.m / (r * r * r * C * C)
  let v2 := dvx * dvx + dvy * dvy + dvz * dvz
  let beta := 4 * G * sun.m / r - v2
  let gamma := 4 * (dvx * dx + dvy * dy + dvz * dz)
  ⟨alpha * (beta * dx + gamma * dvx),
   alpha * (beta * dy + gamma * dvy),
   alpha * (beta * dz + gamma * dvz)⟩

/-- One iteration of the `rebx_gr` loop (`src/gr.c` lines 42-68): add the
correction to `particles[i]`, subtract `massratio` times it from
`particles[0]`. -/
def grStep (rsqrt : ℚ → ℚ) (G C : ℚ) (sun : Particle) (ps : List Particle)
    (i : ℕ) : List Particle :=
  let pI := ps.getD i default
  let da := grDa rsqrt G C sun pI
  let mrat := pI.m / (ps.getD 0 default).m
  let ps1 := ps.set i (addA pI da)
  ps1.set 0 (subA (ps1.getD 0 default) (Vec3.smul mrat da))

/-- Embedding of `rebx_gr` (`src/gr.c` lines 34-69): `sun` is the copy of
`particles[0]` taken before the loop; the loop runs `i = 1 .. _N_real-1`. -/
def rebx_gr (rsqrt : ℚ → ℚ) (G C : ℚ) (Nreal : ℕ) (ps : List Particle) :
    List Particle :=
  let sun := ps.getD 0 default
  (List.range' 1 (Nreal - 1)).foldl (grStep rsqrt G C sun) ps

/-- Vector subtracted from body `i`'s acceleration in `rebx_gr_potential`
(`src/gr.c` lines 82-90), with `prefac1` the loop-invariant
`6.*(G*sun.m)*(G*sun.m)/(C*C)` of line 80. -/
def potVec (prefac1 : ℚ) (sun pI : Particle) : Vec3 :=
  let dx := pI.x - sun.x
  let dy := pI.y - sun.y
  let dz := pI.z - sun.z
  let r2 := dx * dx + dy * dy + dz * dz
  let prefac := prefac1 / (r2 * r2)
  ⟨prefac * dx, prefac * dy, prefac * dz⟩

/-- One iteration of the `rebx_gr_potential` loop (`src/gr.c` lines 81-91). -/
def potStep (prefac1 : ℚ) (sun : Particle) (cur : List Particle) (i : ℕ) :
    List Particle :=
  cur.set i (subA (cur.getD i default) (potVec prefac1 sun (cur.getD i default)))

/-- Embedding of `rebx_gr_potential` (`src/gr.c` lines 71-92).  No square
root is taken by this function (only `r2*r2` appears). -/
def rebx_gr_potential (G C : ℚ) (Nreal : ℕ) (ps : List Particle) :
    List Particle :=
  let sun := ps.getD 0 default
  let prefac1 := 6 * (G * sun.m) * (G * sun.m) / (C * C)
  (List.range' 1 (Nreal - 1)).foldl (potStep prefac1 sun) ps

/-- Model of `struct rebx_params_gr`: the speed of light `c`, the capacity
field `allocatedN` and the raw contents of the four heap buffers. -/
structure GrParams where
  c : ℚ
  allocatedN : ℕ
  a_const : ℕ → Vec3
  a_newton : ℕ → Vec3
  a_new : ℕ → Vec3
  a_old : ℕ → Vec3

/-- Capacity after the growth check of `src/gr.c` lines 103-109: grow to
`Nreal` exactly when the current capacity is below it. -/
def ensureCap (alloc Nreal : ℕ) : ℕ :=
  if alloc < Nreal then Nreal else alloc

/-- Model of `memset(buf, 0, sizeof(struct reb_vec3d)*Nreal)`: zero the
first `Nreal` slots, leave the rest of the raw memory untouched. -/
def memsetN (Nreal : ℕ) (f : ℕ → Vec3) : ℕ → Vec3 :=
  fun i => if i < Nreal then Vec3.zero else f i

/-- Pointwise update of one slot of a buffer (a single array-element
store). -/
def fupd (f : ℕ → Vec3) (i : ℕ) (v : Vec3) : ℕ → Vec3 :=
  fun j => if j = i then v else f j

/-- Acceleration components of a particle as a vector. -/
def accOf (p : Particle) : Vec3 := ⟨p.ax, p.ay, p.az⟩

/-- Newtonian-snapshot buffer after `src/gr.c` lines 115-137: slot `i < Nreal`
holds `particles[i]`'s current acceleration; then, when
`gravity_ignore_10 && _N_real > 1`, slots 0 and 1 are OVERWRITTEN (plain
assignment in the source, lines 130-135) with the recomputed mutual
Newtonian term. -/
def newtonSnap (rsqrt : ℚ → ℚ) (G : ℚ) (Nreal : ℕ) (gi10 : Bool)
    (ps : List Particle) (buf : ℕ → Vec3) : ℕ → Vec3 :=
  let base : ℕ → Vec3 :=
    fun i => if i < Nreal then accOf (ps.getD i default) else buf i
  if gi10 ∧ 1 < Nreal then
    let p0 := ps.getD 0 default
    let p1 := ps.getD 1 default
    let dx := p0.x - p1.x
    let dy := p0.y - p1.y
    let dz := p0.z - p1.z
    let r2 := dx * dx + dy * dy + dz * dz
    let r := rsqrt r2
    let prefact := -G / (r2 * r)
    let prefact0 := prefact * p0.m
    let prefact1 := prefact * p1.m
    fupd (fupd base 0 ⟨prefact1 * dx, prefact1 * dy, prefact1 * dz⟩) 1
      ⟨prefact0 * dx, prefact0 * dy, prefact0 * dz⟩
  else base

/-- Accumulation of `a1` and `a2` over the inner `k` loop of the
Constant-Term Computer (`src/gr.c` lines 145-164), for the ordered pair
`(i, j)`.  Note the factor `4.` on the `a1` summands in the source
(line 154) and its absence on the `a2` summands (line 162). -/
def a12pair (rsqrt : ℚ → ℚ) (G : ℚ) (Nreal : ℕ) (ps : List Particle)
    (i j : ℕ) : ℚ × ℚ :=
  (List.range Nreal).foldl (fun acc k =>
    let pk := ps.getD k default
    let acc1 :=
      if k ≠ i then
        let dxik := (ps.getD i default).x - pk.x
        let dyik := (ps.getD i default).y - pk.y
        let dzik := (ps.getD i default).z - pk.z
        let r2ik := dxik * dxik + dyik * dyik + dzik * dzik
        let rik := rsqrt r2ik
        acc.1 + 4 * G * pk.m / rik
      else acc.1
    let acc2 :=
      if k ≠ j then
        let dxlj := pk.x - (ps.getD j default).x
        let dylj := pk.y - (ps.getD j default).y
        let dzlj := pk.z - (ps.getD j default).z
        let r2lj := dxlj * dxlj + dylj * dylj + dzlj * dzlj
        let rlj := rsqrt r2lj
        acc.2 + G * pk.m / rlj
      else acc.2
    (acc1, acc2)) (0, 0)

/-- Contribution of the ordered pair `(i, j)`, `j ≠ i`, to `a_const[i]`
(`src/gr.c` lines 166-207). -/
def constPair (rsqrt : ℚ → ℚ) (G C2i : ℚ) (Nreal : ℕ) (ps : List Particle)
    (i j : ℕ) : Vec3 :=
  let a12 := a12pair rsqrt G Nreal ps i j
  let a1 := a12.1
  let a2 := a12.2
  let pI := ps.getD i default
  let pJ := ps.getD j default
  let dxij := pI.x - pJ.x
  let dyij := pI.y - pJ.y
  let dzij := pI.z - pJ.z
  let r2ij := dxij * dxij + dyij * dyij + dzij * dzij
  let rij := rsqrt r2ij
  let rij3i := 1 / (r2ij * rij)
  let dvxij := pI.vx - pJ.vx
  let dvyij := pI.vy - pJ.vy
  let dvzij := pI.vz - pJ.vz
  let vi2 := pI.vx * pI.vx + pI.vy * pI.vy + pI.vz * pI.vz
  let a3 := -vi2
  let vj2 := pJ.vx * pJ.vx + pJ.vy * pJ.vy + pJ.vz * pJ.vz
  let a4 := -2 * vj2
  let vij2 := pI.vx * pJ.vx + pI.vy * pJ.vy + pI.vz * pJ.vz
  let a5 := 4 * vij2
  let dxijvj := dxij * pJ.vx + dyij * pJ.vy + dzij * pJ.vz
  let a6 := 3 / 2 * dxijvj * dxijvj / r2ij
  let factor1 := a1 + a2 + a3 + a4 + a5 + a6
  let factor2 := dxij * (4 * pI.vx - 3 * pJ.vx)
    + dyij * (4 * pI.vy - 3 * pJ.vy)
    + dzij * (4 * pI.vz - 3 * pJ.vz)
  let prefac1 := G * pJ.m * factor1 * rij3i * C2i
  let prefac2 := G * pJ.m * factor2 * rij3i * C2i
  ⟨prefac1 * dxij + prefac2 * dvxij,
   prefac1 * dyij + prefac2 * dvyij,
   prefac1 * dzij + prefac2 * dvzij⟩

/-- Value of `a_const[i]` after the Constant-Term loop (`src/gr.c` lines
140-210): starts from the `memset` zero and accumulates `constPair i j`
over `j = 0 .. Nreal-1`, `j ≠ i`. -/
def constTerm (rsqrt : ℚ → ℚ) (G C2i : ℚ) (Nreal : ℕ) (ps : List Particle)
    (i : ℕ) : Vec3 :=
  (List.range Nreal).foldl (fun acc j =>
    if j ≠ i then acc.add (constPair rsqrt G C2i Nreal ps i j) else acc)
    Vec3.zero

/-- Whole `a_const` buffer after lines 140-210: first `Nreal` slots hold
`constTerm`, the rest keep the previous raw contents. -/
def aConstBuf (rsqrt : ℚ → ℚ) (G C2i : ℚ) (Nreal : ℕ) (ps : List Particle)
    (buf : ℕ → Vec3) : ℕ → Vec3 :=
  fun i => if i < Nreal then constTerm rsqrt G C2i Nreal ps i else buf i

/-- Body of the pairwise-update double loop for one pair `(i, j)`
(`src/gr.c` lines 226-249): read the previous totals of `i` and `j`,
increment `a_new[i]`, decrement `a_new[j]`. -/
def iterPairStep (rsqrt : ℚ → ℚ) (G C C2i : ℚ) (ps : List Particle)
    (aNw aCs aOld : ℕ → Vec3) (an : ℕ → Vec3) (i j : ℕ) : ℕ → Vec3 :=
  let aoldi : Vec3 := ⟨(aNw i).x + (aCs i).x + (aOld i).x,
    (aNw i).y + (aCs i).y + (aOld i).y,
    (aNw i).z + (aCs i).z + (aOld i).z⟩
  let aoldj : Vec3 := ⟨(aNw j).x + (aCs j).x + (aOld j).x,
    (aNw j).y + (aCs j).y + (aOld j).y,
    (aNw j).z + (aCs j).z + (aOld j).z⟩
  let pI := ps.getD i default
  let pJ := ps.getD j default
  let dxij := pI.x - pJ.x
  let dyij := pI.y - pJ.y
  let dzij := pI.z - pJ.z
  let r2ij := dxij * dxij + dyij * dyij + dzij * dzij
  let rij := rsqrt r2ij
  let daj := dxij * aoldj.x + dyij * aoldj.y + dzij * aoldj.z
  let dai := dxij * aoldi.x + dyij * aoldi.y + dzij * aoldi.z
  let prefac1 := G / (r2ij * rij * 2 * C * C)
  let prefac2 := 7 / 2 * C2i * G / rij
  let an1 := fupd an i ((an i).add
    ⟨pJ.m * (prefac1 * daj * dxij + prefac2 * aoldj.x),
     pJ.m * (prefac1 * daj * dyij + prefac2 * aoldj.y),
     pJ.m * (prefac1 * daj * dzij + prefac2 * aoldj.z)⟩)
  fupd an1 j ((an1 j).sub
    ⟨pI.m * (prefac1 * dai * dxij + prefac2 * aoldi.x),
     pI.m * (prefac1 * dai * dyij + prefac2 * aoldi.y),
     pI.m * (prefac1 * dai * dzij + prefac2 * aoldi.z)⟩)

/-- The full pairwise-update phase of one round (`src/gr.c` lines 224-251):
double loop `i = 0 .. Nreal-1`, `j = i+1 .. Nreal-1` over `iterPairStep`. -/
def pairwiseUpdate (rsqrt : ℚ → ℚ) (G C C2i : ℚ) (ps : List Particle)
    (Nreal : ℕ) (aNw aCs aOld : ℕ → Vec3) (an0 : ℕ → Vec3) : ℕ → Vec3 :=
  (List.range Nreal).foldl (fun an i =>
    (List.range' (i + 1) (Nreal - (i + 1))).foldl (fun an2 j =>
      iterPairStep rsqrt G C C2i ps aNw aCs aOld an2 i j) an) an0

/-- Model of C's `isnormal` applied to the residual `d` (see the header
comment): within exact rational arithmetic, `d` is a normal double exactly
when it is nonzero. -/
def isnormalQ (d : ℚ) : Prop := d ≠ 0

instance (d : ℚ) : Decidable (isnormalQ d) :=
  inferInstanceAs (Decidable (d ≠ 0))

/-- Convergence residual maximum of one round (`src/gr.c` lines 254-266):
maximum over bodies of `|new−old|² / |new|²`, keeping only `isnormal`
values, starting from `0`. -/
def maxdOf (Nreal : ℕ) (an ao : ℕ → Vec3) : ℚ :=
  (List.range Nreal).foldl (fun maxd i =>
    let dx := (an i).x - (ao i).x
    let dy := (an i).y - (ao i).y
    let dz := (an i).z - (ao i).z
    let x := (an i).x
    let y := (an i).y
    let z := (an i).z
    let d := (dx * dx + dy * dy + dz * dz) / (x * x + y * y + z * z)
    if isnormalQ d ∧ d > maxd then d else maxd) 0

/-- Convergence threshold `1e-30` of `src/gr.c` line 267. -/
def convEps : ℚ := 1 / 10 ^ 30

/-- The two ping-pong iterate buffers of the Fixed-Point Iterator.
`a_new` is the buffer currently in the "new" role, `a_old` the one in the
"old" role; the swap exchanges the roles (the raw memories). -/
structure IterBufs where
  a_new : ℕ → Vec3
  a_old : ℕ → Vec3

/-- Buffer state at the start of a round's pairwise-update phase, i.e.
after the swap and the `memset` of `src/gr.c` lines 217-222: the former
"new" buffer becomes `a_old`; the former "old" raw memory becomes `a_new`
with its first `Nreal` slots zeroed. -/
def preRound (Nreal : ℕ) (b : IterBufs) : IterBufs :=
  { a_new := memsetN Nreal b.a_old, a_old := b.a_new }

/-- One full round of the iteration (`src/gr.c` lines 217-251): swap and
zero, then the pairwise-update phase. -/
def roundFn (rsqrt : ℚ → ℚ) (G C C2i : ℚ) (ps : List Particle) (Nreal : ℕ)
    (aNw aCs : ℕ → Vec3) (b : IterBufs) : IterBufs :=
  let p := preRound Nreal b
  { a_new := pairwiseUpdate rsqrt G C C2i ps Nreal aNw aCs p.a_old p.a_new,
    a_old := p.a_old }

/-- The iteration loop with its early exit (`src/gr.c` lines 216-270),
structured on the remaining fuel (the `for` loop bound is 10).  Returns the
final buffer state together with the number of rounds executed. -/
def grLoop (rsqrt : ℚ → ℚ) (G C C2i : ℚ) (ps : List Particle) (Nreal : ℕ)
    (aNw aCs : ℕ → Vec3) : ℕ → IterBufs → IterBufs × ℕ
  | 0, b => (b, 0)
  | fuel + 1, b =>
    let b2 := roundFn rsqrt G C C2i ps Nreal aNw aCs b
    if maxdOf Nreal b2.a_new b2.a_old < convEps then (b2, 1)
    else
      let r := grLoop rsqrt G C C2i ps Nreal aNw aCs fuel b2
      (r.1, r.2 + 1)

/-- The iteration without the convergence exit: `iterN n b` is the buffer
state after `n` unconditional rounds.  Used to state which iterate the
loop with early exit returns. -/
def iterN (rsqrt : ℚ → ℚ) (G C C2i : ℚ) (ps : List Particle) (Nreal : ℕ)
    (aNw aCs : ℕ → Vec3) : ℕ → IterBufs → IterBufs
  | 0, b => b
  | n + 1, b => roundFn rsqrt G C C2i ps Nreal aNw aCs
      (iterN rsqrt G C C2i ps Nreal aNw aCs n b)

/-- Newtonian-snapshot buffer as computed inside `rebx_gr_implicit`. -/
def implicitNewton (rsqrt : ℚ → ℚ) (G : ℚ) (Nreal : ℕ) (gi10 : Bool)
    (ps : List Particle) (prm : GrParams) : ℕ → Vec3 :=
  newtonSnap rsqrt G Nreal gi10 ps prm.a_newton

/-- Constant-term buffer as computed inside `rebx_gr_implicit`
(`C2i = 1/(c*c)`, line 97). -/
def implicitConst (rsqrt : ℚ → ℚ) (G : ℚ) (Nreal : ℕ) (ps : List Particle)
    (prm : GrParams) : ℕ → Vec3 :=
  aConstBuf rsqrt G (1 / (prm.c * prm.c)) Nreal ps prm.a_const

/-- Iterate-buffer state just before the loop (`src/gr.c` line 213): the
"new" buffer is the `a_new` memory with its first `Nreal` slots zeroed, the
"old" buffer is the raw `a_old` memory. -/
def implicitB0 (Nreal : ℕ) (prm : GrParams) : IterBufs :=
  { a_new := memsetN Nreal prm.a_new, a_old := prm.a_old }

/-- The whole iteration of `rebx_gr_implicit` (`src/gr.c` lines 213-270):
10 rounds of fuel starting from `implicitB0`. -/
def implicitLoop (rsqrt : ℚ → ℚ) (G : ℚ) (Nreal : ℕ) (gi10 : Bool)
    (ps : List Particle) (prm : GrParams) : IterBufs × ℕ :=
  grLoop rsqrt G prm.c (1 / (prm.c * prm.c)) ps Nreal
    (implicitNewton rsqrt G Nreal gi10 ps prm)
    (implicitConst rsqrt G Nreal ps prm) 10 (implicitB0 Nreal prm)

/-- Final combine loop (`src/gr.c` lines 272-276): for `i < Nreal`, add
`f i = a_new[i] + a_const[i]` to `particles[i]`'s acceleration; the index
argument threads the current position. -/
def combineAux (Nreal : ℕ) (f : ℕ → Vec3) : ℕ → List Particle → List Particle
  | _, [] => []
  | i, p :: rest =>
    (if i < Nreal then addA p (f i) else p) :: combineAux Nreal f (i + 1) rest

/-- Embedding of `rebx_gr_implicit` (`src/gr.c` lines 94-278).  Returns the
updated particle list and the updated parameter object.  In the C source the
buffer-pointer swap is on locals, so after the call the `a_new`/`a_old`
struct fields still point at the original allocations while the loop's final
"new"/"old" contents live in one or the other depending on the number of
rounds; the model stores the final role-based contents (no claim depends on
which physical allocation holds which). -/
def rebx_gr_implicit (rsqrt : ℚ → ℚ) (G : ℚ) (Nreal : ℕ) (gi10 : Bool)
    (ps : List Particle) (prm : GrParams) : List Particle × GrParams :=
  let res := implicitLoop rsqrt G Nreal gi10 ps prm
  let aCs := implicitConst rsqrt G Nreal ps prm
  let ps2 := combineAux Nreal (fun i => (res.1.a_new i).add (aCs i)) 0 ps
  (ps2,
   { c := prm.c
     allocatedN := ensureCap prm.allocatedN Nreal
     a_const := aCs
     a_newton := implicitNewton rsqrt G Nreal gi10 ps prm
     a_new := res.1.a_new
     a_old := res.1.a_old })

/-! Auxiliary lemmas about lists and the small helper operations. -/

lemma getD_set_self {α : Type} {l : List α} {i : ℕ} (a d : α)
    (h : i < l.length) : (l.set i a).getD i d = a := by
  simp [List.getD_eq_getElem?_getD, List.getElem?_set, h]

lemma getD_set_ne {α : Type} {l : List α} {i j : ℕ} (a d : α)
    (h : j ≠ i) : (l.set i a).getD j d = l.getD j d := by
  simp [List.getD_eq_getElem?_getD, List.getElem?_set, Ne.symm h]

lemma addA_zero (p : Particle) : addA p ⟨0, 0, 0⟩ = p := by
  cases p
  simp [addA]

lemma combineAux_of_le (Nreal : ℕ) (f : ℕ → Vec3) :
    ∀ (l : List Particle) (i : ℕ), Nreal ≤ i → combineAux Nreal f i l = l := by
  intro l
  induction l with
  | nil => intro i _; rfl
  | cons p rest ih =>
    intro i hi
    simp only [combineAux, if_neg (by omega : ¬ i < Nreal)]
    rw [ih (i + 1) (by omega)]

lemma ensureCap_eq_max (alloc Nreal : ℕ) :
    ensureCap alloc Nreal = max alloc Nreal := by
  unfold ensureCap
  split
  · omega
  · omega

lemma implicit_allocatedN (rsqrt : ℚ → ℚ) (G : ℚ) (Nreal : ℕ) (gi10 : Bool)
    (ps : List Particle) (prm : GrParams) :
    (rebx_gr_implicit rsqrt G Nreal gi10 ps prm).2.allocatedN
      = max prm.allocatedN Nreal := by
  simp [rebx_gr_implicit, ensureCap_eq_max]

/-- C5: the Correction Buffer Pool's capacity after a call of
`rebx_gr_implicit` equals `max` of its previous value and the current
`N_real`; hence it never shrinks, always satisfies
`allocatedCapacity ≥ N_real` after the call, and after any sequence of
calls (each a triple of `N_real`, `gravity_ignore_10` and a particle list)
it equals the maximum `N_real` seen so far. -/
theorem gr_implicit_capacity_spec (rsqrt : ℚ → ℚ) (G : ℚ) (Nreal : ℕ)
    (gi10 : Bool) (ps : List Particle) (prm : GrParams) :
    (rebx_gr_implicit rsqrt G Nreal gi10 ps prm).2.allocatedN
        = max prm.allocatedN Nreal
      ∧ prm.allocatedN
          ≤ (rebx_gr_implicit rsqrt G Nreal gi10 ps prm).2.allocatedN
      ∧ Nreal ≤ (rebx_gr_implicit rsqrt G Nreal gi10 ps prm).2.allocatedN
      ∧ ∀ calls : List (ℕ × Bool × List Particle),
          ((calls.foldl
              (fun q c => (rebx_gr_implicit rsqrt G c.1 c.2.1 c.2.2 q).2)
              prm).allocatedN)
            = calls.foldl (fun a c => max a c.1) prm.allocatedN := by
  refine ⟨implicit_allocatedN .., ?_, ?_, ?_⟩
  · rw [implicit_allocatedN]; omega
  · rw [implicit_allocatedN]; omega
  · intro calls
    induction calls generalizing prm with
    | nil => rfl
    | cons c cs ih =>
      simp only [List.foldl_cons]
      rw [ih, implicit_allocatedN]

/-! Lemmas for the degenerate case `N_real = 1`. -/

lemma pairwiseUpdate_one (rsqrt : ℚ → ℚ) (G C C2i : ℚ) (ps : List Particle)
    (aNw aCs aOld an0 : ℕ → Vec3) :
    pairwiseUpdate rsqrt G C C2i ps 1 aNw aCs aOld an0 = an0 := rfl

lemma roundFn_one (rsqrt : ℚ → ℚ) (G C C2i : ℚ) (ps : List Particle)
    (aNw aCs : ℕ → Vec3) (b : IterBufs) :
    roundFn rsqrt G C C2i ps 1 aNw aCs b
      = { a_new := memsetN 1 b.a_old, a_old := b.a_new } := rfl

lemma maxdOf_one_zero (an ao : ℕ → Vec3) (han : an 0 = Vec3.zero)
    (hao : ao 0 = Vec3.zero) : maxdOf 1 an ao = 0 := by
  have h1 : List.range 1 = [0] := rfl
  simp [maxdOf, h1, han, hao, Vec3.zero, isnormalQ]

lemma memsetN_lt (Nreal : ℕ) (f : ℕ → Vec3) (i : ℕ) (h : i < Nreal) :
    memsetN Nreal f i = Vec3.zero := by
  simp [memsetN, h]

lemma constTerm_one (rsqrt : ℚ → ℚ) (G C2i : ℚ) (ps : List Particle) :
    constTerm rsqrt G C2i 1 ps 0 = Vec3.zero := rfl

lemma grLoop_one (rsqrt : ℚ → ℚ) (G C C2i : ℚ) (ps : List Particle)
    (aNw aCs : ℕ → Vec3) (b : IterBufs) (hb : b.a_new 0 = Vec3.zero) :
    (grLoop rsqrt G C C2i ps 1 aNw aCs 10 b).1.a_new 0 = Vec3.zero := by
  have h10 : (10 : ℕ) = 9 + 1 := rfl
  rw [h10]
  simp only [grLoop, roundFn_one]
  have hcond : maxdOf 1 (memsetN 1 b.a_old) b.a_new < convEps := by
    rw [maxdOf_one_zero _ _ (memsetN_lt 1 b.a_old 0 (by omega)) hb]
    norm_num [convEps]
  rw [if_pos hcond]
  exact memsetN_lt 1 b.a_old 0 (by omega)

/-- C8: with `N_real = 1` each of the three correction models returns the
particle list unchanged (in particular every acceleration, including those
of any variational particles beyond index 0, is untouched), for every
particle list, every parameter object and every value of
`gravity_ignore_10`. -/
theorem gr_all_models_noop_one (rsqrt : ℚ → ℚ) (G C : ℚ) (ps : List Particle)
    (gi10 : Bool) (prm : GrParams) :
    rebx_gr rsqrt G C 1 ps = ps
      ∧ rebx_gr_potential G C 1 ps = ps
      ∧ (rebx_gr_implicit rsqrt G 1 gi10 ps prm).1 = ps := by
  refine ⟨rfl, rfl, ?_⟩
  show combineAux 1 _ 0 ps = ps
  cases ps with
  | nil => rfl
  | cons p rest =>
    have hnew : (implicitLoop rsqrt G 1 gi10 (p :: rest) prm).1.a_new 0
        = Vec3.zero := by
      apply grLoop_one
      exact memsetN_lt 1 prm.a_new 0 (by omega)
    have hcs : implicitConst rsqrt G 1 (p :: rest) prm 0 = Vec3.zero := by
      simp [implicitConst, aConstBuf, constTerm_one]
    simp only [combineAux, if_pos (by omega : (0:ℕ) < 1), hnew, hcs]
    rw [combineAux_of_le 1 _ rest 1 (by omega)]
    simp [Vec3.add, Vec3.zero, addA_zero]

/-! Lemmas and theorem for the Explicit Potential Corrector (claim about
`rebx_gr_potential`). -/

lemma range'_one_concat (n : ℕ) :
    List.range' 1 (n + 1) = List.range' 1 n ++ [n + 1] := by
  rw [List.range'_concat]
  simp [Nat.add_comm]

/-- The modified-potential correction vector as the specification writes it:
`prefac = 6·(G·m0)²/(C²·r⁴)` multiplying the relative position `Δr`. -/
def potVecSpec (G C : ℚ) (sun pI : Particle) : Vec3 :=
  let dx := pI.x - sun.x
  let dy := pI.y - sun.y
  let dz := pI.z - sun.z
  let r2 := dx * dx + dy * dy + dz * dz
  let prefac := 6 * (G * sun.m) ^ 2 / (C ^ 2 * r2 ^ 2)
  ⟨prefac * dx, prefac * dy, prefac * dz⟩

lemma potVec_eq_spec (G C : ℚ) (sun pI : Particle) :
    potVec (6 * (G * sun.m) * (G * sun.m) / (C * C)) sun pI
      = potVecSpec G C sun pI := by
  have hpre : ∀ r2 : ℚ, 6 * (G * sun.m) * (G * sun.m) / (C * C) / (r2 * r2)
      = 6 * (G * sun.m) ^ 2 / (C ^ 2 * r2 ^ 2) := by
    intro r2
    rw [div_div, show 6 * (G * sun.m) * (G * sun.m) = 6 * (G * sun.m) ^ 2
        from by ring,
      show C * C * (r2 * r2) = C ^ 2 * r2 ^ 2 from by ring]
  simp only [potVec, potVecSpec, hpre]

lemma pot_fold_inv (prefac1 : ℚ) (sun : Particle) (ps : List Particle)
    (n : ℕ) (hn : n < ps.length) :
    ((List.range' 1 n).foldl (potStep prefac1 sun) ps).length = ps.length
    ∧ (∀ j, (j = 0 ∨ n < j) →
        ((List.range' 1 n).foldl (potStep prefac1 sun) ps).getD j default
          = ps.getD j default)
    ∧ (∀ i, 1 ≤ i → i ≤ n →
        ((List.range' 1 n).foldl (potStep prefac1 sun) ps).getD i default
          = subA (ps.getD i default)
              (potVec prefac1 sun (ps.getD i default))) := by
  induction n with
  | zero =>
    refine ⟨rfl, fun j _ => rfl, fun i h1 h2 => absurd (h1.trans h2) (by omega)⟩
  | succ n ih =>
    obtain ⟨ihlen, ihout, ihin⟩ := ih (by omega)
    rw [range'_one_concat, List.foldl_append, List.foldl_cons, List.foldl_nil]
    set res := (List.range' 1 n).foldl (potStep prefac1 sun) ps with hres
    have hgetn1 : res.getD (n + 1) default = ps.getD (n + 1) default :=
      ihout (n + 1) (Or.inr (by omega))
    have hlen' : n + 1 < res.length := by omega
    refine ⟨by simp [potStep, ihlen], ?_, ?_⟩
    · intro j hj
      have hjne : j ≠ n + 1 := by omega
      rw [potStep, getD_set_ne _ _ hjne]
      exact ihout j (by omega)
    · intro i h1 h2
      rcases Nat.lt_or_ge i (n + 1) with hlt | hge
      · rw [potStep, getD_set_ne _ _ (by omega)]
        exact ihin i h1 (by omega)
      · have hieq : i = n + 1 := by omega
        subst hieq
        rw [potStep, hgetn1, getD_set_self _ _ hlen']

/-- C7: for every body `i` with `0 < i < N_real`, the Explicit Potential
Corrector subtracts exactly `prefac·Δr` from body `i`'s acceleration, with
`prefac = 6·(G·m0)²/(C²·r⁴)` and `Δr` the position of body `i` relative to
body 0, and leaves body 0's acceleration (indeed body 0's whole record)
unchanged. -/
theorem gr_potential_spec (G C : ℚ) (Nreal : ℕ) (ps : List Particle)
    (hN : Nreal ≤ ps.length) :
    (rebx_gr_potential G C Nreal ps).getD 0 default = ps.getD 0 default
    ∧ ∀ i, 0 < i → i < Nreal →
        (rebx_gr_potential G C Nreal ps).getD i default
          = subA (ps.getD i default)
              (potVecSpec G C (ps.getD 0 default) (ps.getD i default)) := by
  rcases Nat.eq_zero_or_pos Nreal with h0 | hpos
  · subst h0
    exact ⟨rfl, fun i _ h => absurd h (by omega)⟩
  · have hn : Nreal - 1 < ps.length := by omega
    obtain ⟨_, hout, hin⟩ :=
      pot_fold_inv (6 * (G * (ps.getD 0 default).m) * (G * (ps.getD 0 default).m)
        / (C * C)) (ps.getD 0 default) ps (Nreal - 1) hn
    constructor
    · exact hout 0 (Or.inl rfl)
    · intro i h1 h2
      rw [show rebx_gr_potential G C Nreal ps
          = (List.range' 1 (Nreal - 1)).foldl
              (potStep (6 * (G * (ps.getD 0 default).m)
                * (G * (ps.getD 0 default).m) / (C * C))
                (ps.getD 0 default)) ps from rfl]
      rw [hin i h1 (by omega), potVec_eq_spec]

/-! Lemmas and theorem for the Explicit Two-Body Corrector (claim about
`rebx_gr`). -/

/-- The two-body correction vector as the specification writes it:
`alpha = G·m0/(r³C²)`, `beta = 4·G·m0/r − v²`, `gamma = 4·(Δr·Δv)`,
correction `alpha·(beta·Δr + gamma·Δv)`. -/
def grDaSpec (rsqrt : ℚ → ℚ) (G C : ℚ) (sun pI : Particle) : Vec3 :=
  let dx := pI.x - sun.x
  let dy := pI.y - sun.y
  let dz := pI.z - sun.z
  let r2 := dx * dx + dy * dy + dz * dz
  let r := rsqrt r2
  let dvx := pI.vx - sun.vx
  let dvy := pI.vy - sun.vy
  let dvz := pI.vz - sun.vz
  let alpha := G * sun.m / (r ^ 3 * C ^ 2)
  let v2 := dvx * dvx + dvy * dvy + dvz * dvz
  let beta := 4 * G * sun.m / r - v2
  let gamma := 4 * (dvx * dx + dvy * dy + dvz * dz)
  ⟨alpha * (beta * dx + gamma * dvx),
   alpha * (beta * dy + gamma * dvy),
   alpha * (beta * dz + gamma * dvz)⟩

lemma grDa_eq_spec (rsqrt : ℚ → ℚ) (G C : ℚ) (sun pI : Particle) :
    grDa rsqrt G C sun pI = grDaSpec rsqrt G C sun pI := by
  have h : ∀ r : ℚ, r * r * r * C * C = r ^ 3 * C ^ 2 := fun r => by ring
  simp only [grDa, grDaSpec, h]

lemma subA_m (p : Particle) (v : Vec3) : (subA p v).m = p.m := rfl

lemma foldl_subA_m (g : ℕ → Vec3) :
    ∀ (l : List ℕ) (p : Particle),
      (l.foldl (fun q i => subA q (g i)) p).m = p.m := by
  intro l
  induction l with
  | nil => intro p; rfl
  | cons i rest ih => intro p; rw [List.foldl_cons, ih, subA_m]

lemma gr_fold_inv (rsqrt : ℚ → ℚ) (G C : ℚ) (sun : Particle)
    (ps : List Particle) (hm : (ps.getD 0 default).m = sun.m)
    (n : ℕ) (hn : n < ps.length) :
    ((List.range' 1 n).foldl (grStep rsqrt G C sun) ps).length = ps.length
    ∧ (∀ j, n < j →
        ((List.range' 1 n).foldl (grStep rsqrt G C sun) ps).getD j default
          = ps.getD j default)
    ∧ (∀ i, 1 ≤ i → i ≤ n →
        ((List.range' 1 n).foldl (grStep rsqrt G C sun) ps).getD i default
          = addA (ps.getD i default) (grDa rsqrt G C sun (ps.getD i default)))
    ∧ ((List.range' 1 n).foldl (grStep rsqrt G C sun) ps).getD 0 default
        = (List.range' 1 n).foldl (fun p i => subA p (Vec3.smul
            ((ps.getD i default).m / sun.m)
            (grDa rsqrt G C sun (ps.getD i default)))) (ps.getD 0 default) := by
  induction n with
  | zero =>
    exact ⟨rfl, fun j _ => rfl,
      fun i h1 h2 => absurd (h1.trans h2) (by omega), rfl⟩
  | succ n ih =>
    obtain ⟨ihlen, ihout, ihin, ihzero⟩ := ih (by omega)
    rw [range'_one_concat, List.foldl_append, List.foldl_cons, List.foldl_nil,
      List.foldl_append, List.foldl_cons, List.foldl_nil]
    set res := (List.range' 1 n).foldl (grStep rsqrt G C sun) ps with hres
    have hgetn1 : res.getD (n + 1) default = ps.getD (n + 1) default :=
      ihout (n + 1) (by omega)
    have hlen1 : n + 1 < res.length := by omega
    have h0len : 0 < res.length := by omega
    have hm0 : (res.getD 0 default).m = sun.m := by
      rw [ihzero, foldl_subA_m, hm]
    -- unfold one application of grStep at index n+1
    have hstep : grStep rsqrt G C sun res (n + 1)
        = (res.set (n + 1) (addA (ps.getD (n + 1) default)
              (grDa rsqrt G C sun (ps.getD (n + 1) default)))).set 0
            (subA (res.getD 0 default)
              (Vec3.smul ((ps.getD (n + 1) default).m / sun.m)
                (grDa rsqrt G C sun (ps.getD (n + 1) default)))) := by
      rw [grStep]
      rw [hgetn1, getD_set_ne _ _ (by omega : (0:ℕ) ≠ n + 1), hm0]
    rw [hstep]
    refine ⟨by simp [ihlen], ?_, ?_, ?_⟩
    · intro j hj
      rw [getD_set_ne _ _ (by omega : j ≠ 0),
        getD_set_ne _ _ (by omega : j ≠ n + 1)]
      exact ihout j (by omega)
    · intro i h1 h2
      rcases Nat.lt_or_ge i (n + 1) with hlt | hge
      · rw [getD_set_ne _ _ (by omega : i ≠ 0),
          getD_set_ne _ _ (by omega : i ≠ n + 1)]
        exact ihin i h1 (by omega)
      · have hieq : i = n + 1 := by omega
        subst hieq
        rw [getD_set_ne _ _ (by omega : n + 1 ≠ 0),
          getD_set_self _ _ (by simpa using hlen1)]
    · rw [getD_set_self _ _ (by simp; omega), ihzero]

lemma foldl_congr_fn {α β : Type} {l : List β} {f g : α → β → α} {a : α}
    (h : ∀ x i, i ∈ l → f x i = g x i) : l.foldl f a = l.foldl g a := by
  induction l generalizing a with
  | nil => rfl
  | cons i rest ih =>
    rw [List.foldl_cons, List.foldl_cons, h a i (by simp)]
    exact ih (fun x j hj => h x j (by simp [hj]))

/-- C6: for every body `i` with `0 < i < N_real`, `rebx_gr` adds to body
`i`'s acceleration exactly `alpha·(beta·Δr + gamma·Δv)` with
`alpha = G·m0/(r³C²)`, `beta = 4·G·m0/r − v²`, `gamma = 4·(Δr·Δv)`
(relative to body 0), and body 0's acceleration accumulates, for each such
`i`, the subtraction of `(m_i/m_0)` times that same vector (third-law
reaction); all quantities are computed from body 0's pre-loop snapshot,
whose non-acceleration fields the loop never changes. -/
theorem gr_twobody_spec (rsqrt : ℚ → ℚ) (G C : ℚ) (Nreal : ℕ)
    (ps : List Particle) (hN : Nreal ≤ ps.length) :
    (∀ i, 0 < i → i < Nreal →
        (rebx_gr rsqrt G C Nreal ps).getD i default
          = addA (ps.getD i default)
              (grDaSpec rsqrt G C (ps.getD 0 default) (ps.getD i default)))
    ∧ (rebx_gr rsqrt G C Nreal ps).getD 0 default
        = (List.range' 1 (Nreal - 1)).foldl (fun p i => subA p (Vec3.smul
            ((ps.getD i default).m / (ps.getD 0 default).m)
            (grDaSpec rsqrt G C (ps.getD 0 default) (ps.getD i default))))
            (ps.getD 0 default) := by
  rcases Nat.eq_zero_or_pos Nreal with h0 | hpos
  · subst h0
    exact ⟨fun i _ h => absurd h (by omega), rfl⟩
  · have hn : Nreal - 1 < ps.length := by omega
    obtain ⟨_, _, hin, hzero⟩ :=
      gr_fold_inv rsqrt G C (ps.getD 0 default) ps rfl (Nreal - 1) hn
    have hshow : rebx_gr rsqrt G C Nreal ps
        = (List.range' 1 (Nreal - 1)).foldl
            (grStep rsqrt G C (ps.getD 0 default)) ps := rfl
    constructor
    · intro i h1 h2
      rw [hshow, hin i h1 (by omega), grDa_eq_spec]
    · rw [hshow, hzero]
      apply foldl_congr_fn
      intro p i _
      rw [grDa_eq_spec]

/-! Lemmas and theorems about the `a1` potential sum of the Constant-Term
Computer. -/

/-- Distance `r_ik` fed to the `a1` summand (`src/gr.c` lines 149-153). -/
def rikOf (rsqrt : ℚ → ℚ) (ps : List Particle) (i k : ℕ) : ℚ :=
  let dxik := (ps.getD i default).x - (ps.getD k default).x
  let dyik := (ps.getD i default).y - (ps.getD k default).y
  let dzik := (ps.getD i default).z - (ps.getD k default).z
  rsqrt (dxik * dxik + dyik * dyik + dzik * dzik)

/-- Distance `r_lj` fed to the `a2` summand (`src/gr.c` lines 157-161). -/
def rkjOf (rsqrt : ℚ → ℚ) (ps : List Particle) (k j : ℕ) : ℚ :=
  let dxlj := (ps.getD k default).x - (ps.getD j default).x
  let dylj := (ps.getD k default).y - (ps.getD j default).y
  let dzlj := (ps.getD k default).z - (ps.getD j default).z
  rsqrt (dxlj * dxlj + dylj * dylj + dzlj * dzlj)

/-- The `a1`/`a2` accumulation of `a12pair` generalized to an arbitrary
index list, for the induction below. -/
def a12fold (rsqrt : ℚ → ℚ) (G : ℚ) (ps : List Particle) (i j : ℕ)
    (l : List ℕ) (ab : ℚ × ℚ) : ℚ × ℚ :=
  l.foldl (fun acc k =>
    let pk := ps.getD k default
    let acc1 :=
      if k ≠ i then
        let dxik := (ps.getD i default).x - pk.x
        let dyik := (ps.getD i default).y - pk.y
        let dzik := (ps.getD i default).z - pk.z
        let r2ik := dxik * dxik + dyik * dyik + dzik * dzik
        let rik := rsqrt r2ik
        acc.1 + 4 * G * pk.m / rik
      else acc.1
    let acc2 :=
      if k ≠ j then
        let dxlj := pk.x - (ps.getD j default).x
        let dylj := pk.y - (ps.getD j default).y
        let dzlj := pk.z - (ps.getD j default).z
        let r2lj := dxlj * dxlj + dylj * dylj + dzlj * dzlj
        let rlj := rsqrt r2lj
        acc.2 + G * pk.m / rlj
      else acc.2
    (acc1, acc2)) ab

lemma a12pair_eq_fold (rsqrt : ℚ → ℚ) (G : ℚ) (Nreal : ℕ)
    (ps : List Particle) (i j : ℕ) :
    a12pair rsqrt G Nreal ps i j
      = a12fold rsqrt G ps i j (List.range Nreal) (0, 0) := rfl

lemma a12fold_sum (rsqrt : ℚ → ℚ) (G : ℚ) (ps : List Particle) (i j : ℕ) :
    ∀ (l : List ℕ) (a b : ℚ),
      a12fold rsqrt G ps i j l (a, b)
        = (a + ((l.filter (fun k => k != i)).map
              (fun k => 4 * G * (ps.getD k default).m
                / rikOf rsqrt ps i k)).sum,
           b + ((l.filter (fun k => k != j)).map
              (fun k => G * (ps.getD k default).m
                / rkjOf rsqrt ps k j)).sum) := by
  intro l
  induction l with
  | nil => intro a b; simp [a12fold]
  | cons k rest ih =>
    intro a b
    have hstep : a12fold rsqrt G ps i j (k :: rest) (a, b)
        = a12fold rsqrt G ps i j rest
            ((if k ≠ i then
                a + 4 * G * (ps.getD k default).m / rikOf rsqrt ps i k
              else a),
             (if k ≠ j then
                b + G * (ps.getD k default).m / rkjOf rsqrt ps k j
              else b)) := rfl
    rw [hstep, ih]
    simp only [Prod.mk.injEq]
    constructor
    · by_cases h : k = i
      · simp [h, List.filter_cons]
      · simp [h, List.filter_cons, add_assoc]
    · by_cases h : k = j
      · simp [h, List.filter_cons]
      · simp [h, List.filter_cons, add_assoc]

/-- Example particle: unit mass at the origin, at rest, with a nonzero
pre-existing acceleration, used by concrete witnesses. -/
def pEx0 : Particle :=
  { x := 0, y := 0, z := 0, vx := 0, vy := 0, vz := 0, m := 1,
    ax := 5, ay := 0, az := 0 }

/-- Example particle: unit mass at distance 1 from the origin on the x-axis,
at rest, with zero acceleration, used by concrete witnesses. -/
def pEx1 : Particle :=
  { x := 1, y := 0, z := 0, vx := 0, vy := 0, vz := 0, m := 1,
    ax := 0, ay := 0, az := 0 }

/-- C1 counterexample: with two unit-mass bodies at distance 1 and `G = 1`
(square root modelled by the identity, exact at the argument 1), the
accumulated `a1` of the pair `(i,j) = (0,1)` is `4`, not the claimed
unscaled potential sum `Σ_{k≠0} G·m_k/r_0k = 1`. -/
theorem a1_unscaled_counterexample :
    (a12pair (fun q => q) 1 2 [pEx0, pEx1] 0 1).1
      ≠ (((List.range 2).filter (fun k => k != 0)).map
          (fun k => 1 * ([pEx0, pEx1].getD k default).m
            / rikOf (fun q => q) [pEx0, pEx1] 0 k)).sum := by
  have hL : (a12pair (fun q => q) 1 2 [pEx0, pEx1] 0 1).1 = 4 := by
    norm_num [a12pair, show List.range 2 = [0, 1] from rfl, pEx0, pEx1]
  have hR : (((List.range 2).filter (fun k => k != 0)).map
      (fun k => 1 * ([pEx0, pEx1].getD k default).m
        / rikOf (fun q => q) [pEx0, pEx1] 0 k)).sum = 1 := by
    norm_num [show List.range 2 = [0, 1] from rfl, rikOf, pEx0, pEx1]
  rw [hL, hR]
  norm_num

/-- C1 amended: in the Constant-Term Computer, for every ordered pair
`(i,j)` the accumulated potential sum `a1` equals the sum over all `k ≠ i`
(over the `N_real` bodies) of `4·G·m_k / r_ik` — each summand carries the
scale factor 4 found at `src/gr.c` line 154. -/
theorem a1_scaled_sum (rsqrt : ℚ → ℚ) (G : ℚ) (Nreal : ℕ)
    (ps : List Particle) (i j : ℕ) :
    (a12pair rsqrt G Nreal ps i j).1
      = (((List.range Nreal).filter (fun k => k != i)).map
          (fun k => 4 * G * (ps.getD k default).m
            / rikOf rsqrt ps i k)).sum := by
  rw [a12pair_eq_fold, a12fold_sum]
  simp

/-! Lemmas and theorems about the Newtonian-snapshot buffer and the
`gravity_ignore_10` branch. -/

/-- The recomputed direct mutual Newtonian term of `src/gr.c` lines 122-135
acting on one of the bodies 0,1: `(-G/(r²·r))·mOther·Δr` with
`Δr = pos(0) − pos(1)`; for body 0 `mOther` is body 1's mass (`prefact1`),
for body 1 it is body 0's mass (`prefact0`). -/
def mutual10 (rsqrt : ℚ → ℚ) (G : ℚ) (ps : List Particle) (mOther : ℚ) :
    Vec3 :=
  let p0 := ps.getD 0 default
  let p1 := ps.getD 1 default
  let dx := p0.x - p1.x
  let dy := p0.y - p1.y
  let dz := p0.z - p1.z
  let r2 := dx * dx + dy * dy + dz * dz
  let r := rsqrt r2
  let prefact := -G / (r2 * r)
  ⟨prefact * mOther * dx, prefact * mOther * dy, prefact * mOther * dz⟩

/-- Concrete parameter object with zeroed buffers, used by witnesses. -/
def prmEx : GrParams :=
  { c := 10, allocatedN := 0, a_const := fun _ => Vec3.zero,
    a_newton := fun _ => Vec3.zero, a_new := fun _ => Vec3.zero,
    a_old := fun _ => Vec3.zero }

/-- C2 counterexample: with `gravity_ignore_10` set, two unit-mass bodies at
distance 1 (square root modelled by the identity, exact at 1) and body 0
carrying the accumulated acceleration `(5,0,0)`, the snapshot of body 0 is
the bare recomputed mutual term `(1,0,0)`, not the claimed accumulated
acceleration plus that term `(6,0,0)`. -/
theorem newton_snapshot_add_counterexample :
    implicitNewton (fun q => q) 1 2 true [pEx0, pEx1] prmEx 0
      ≠ (accOf ([pEx0, pEx1].getD 0 default)).add
          (mutual10 (fun q => q) 1 [pEx0, pEx1]
            ([pEx0, pEx1].getD 1 default).m) := by
  have hL : implicitNewton (fun q => q) 1 2 true [pEx0, pEx1] prmEx 0
      = ⟨1, 0, 0⟩ := by
    norm_num [implicitNewton, newtonSnap, fupd, pEx0, pEx1, accOf]
  have hR : (accOf ([pEx0, pEx1].getD 0 default)).add
      (mutual10 (fun q => q) 1 [pEx0, pEx1] ([pEx0, pEx1].getD 1 default).m)
      = ⟨6, 0, 0⟩ := by
    norm_num [mutual10, accOf, Vec3.add, pEx0, pEx1]
  rw [hL, hR]
  intro hcontra
  exact absurd (congrArg Vec3.x hcontra) (by norm_num)

/-- C2 amended: when `gravity_ignore_10` is set and `N_real > 1`, the
Newtonian-snapshot entries of bodies 0 and 1 are OVERWRITTEN with the
recomputed direct mutual Newtonian term (plain assignment at `src/gr.c`
lines 130-135); the previously accumulated acceleration of those bodies is
NOT added — the snapshot equals the bare mutual term. -/
theorem newton_snapshot_assign (rsqrt : ℚ → ℚ) (G : ℚ) (Nreal : ℕ)
    (ps : List Particle) (prm : GrParams) (h2 : 1 < Nreal) :
    implicitNewton rsqrt G Nreal true ps prm 0
        = mutual10 rsqrt G ps (ps.getD 1 default).m
    ∧ implicitNewton rsqrt G Nreal true ps prm 1
        = mutual10 rsqrt G ps (ps.getD 0 default).m := by
  constructor <;>
    simp [implicitNewton, newtonSnap, fupd, mutual10, h2]

/-! Lemma and theorem for the final Acceleration Combiner. -/

lemma combineAux_getD (Nreal : ℕ) (f : ℕ → Vec3) :
    ∀ (l : List Particle) (start i : ℕ), i < l.length →
      (combineAux Nreal f start l).getD i default
        = if start + i < Nreal
          then addA (l.getD i default) (f (start + i))
          else l.getD i default := by
  intro l
  induction l with
  | nil => intro start i h; simp at h
  | cons p rest ih =>
    intro start i h
    cases i with
    | zero => simp [combineAux, List.getD]
    | succ i =>
      have hrec := ih (start + 1) i (by simpa using h)
      simp only [combineAux]
      show (combineAux Nreal f (start + 1) rest).getD i default = _
      rw [hrec]
      have harith : start + 1 + i = start + (i + 1) := by omega
      rw [harith]
      simp [List.getD_cons_succ]

/-- C4: after the iteration finishes, the vector added to real body `i`'s
acceleration is exactly `finalIterate[i] + constantTerm[i]` (the final
"new" buffer of the loop plus the constant-term buffer); in particular the
Newtonian snapshot `a_newton` does not appear in the update. -/
theorem gr_implicit_combine_spec (rsqrt : ℚ → ℚ) (G : ℚ) (Nreal : ℕ)
    (gi10 : Bool) (ps : List Particle) (prm : GrParams) (i : ℕ)
    (h1 : i < Nreal) (h2 : i < ps.length) :
    (rebx_gr_implicit rsqrt G Nreal gi10 ps prm).1.getD i default
      = addA (ps.getD i default)
          (((implicitLoop rsqrt G Nreal gi10 ps prm).1.a_new i).add
            (implicitConst rsqrt G Nreal ps prm i)) := by
  show (combineAux Nreal _ 0 ps).getD i default = _
  rw [combineAux_getD Nreal _ ps 0 i h2]
  simp [h1]

/-! Characterization of the Fixed-Point Iterator loop. -/

lemma iterN_shift (rsqrt : ℚ → ℚ) (G C C2i : ℚ) (ps : List Particle)
    (Nreal : ℕ) (aNw aCs : ℕ → Vec3) :
    ∀ (n : ℕ) (b : IterBufs),
      iterN rsqrt G C C2i ps Nreal aNw aCs n
          (roundFn rsqrt G C C2i ps Nreal aNw aCs b)
        = iterN rsqrt G C C2i ps Nreal aNw aCs (n + 1) b := by
  intro n
  induction n with
  | zero => intro b; rfl
  | succ n ih =>
    intro b
    show roundFn rsqrt G C C2i ps Nreal aNw aCs
        (iterN rsqrt G C C2i ps Nreal aNw aCs n
          (roundFn rsqrt G C C2i ps Nreal aNw aCs b)) = _
    rw [ih b]
    rfl

lemma grLoop_spec (rsqrt : ℚ → ℚ) (G C C2i : ℚ) (ps : List Particle)
    (Nreal : ℕ) (aNw aCs : ℕ → Vec3) :
    ∀ (fuel : ℕ) (b : IterBufs),
      (grLoop rsqrt G C C2i ps Nreal aNw aCs fuel b).2 ≤ fuel
      ∧ (grLoop rsqrt G C C2i ps Nreal aNw aCs fuel b).1
          = iterN rsqrt G C C2i ps Nreal aNw aCs
              (grLoop rsqrt G C C2i ps Nreal aNw aCs fuel b).2 b
      ∧ (∀ k, 1 ≤ k →
          k < (grLoop rsqrt G C C2i ps Nreal aNw aCs fuel b).2 →
          ¬ maxdOf Nreal
              (iterN rsqrt G C C2i ps Nreal aNw aCs k b).a_new
              (iterN rsqrt G C C2i ps Nreal aNw aCs k b).a_old < convEps)
      ∧ ((grLoop rsqrt G C C2i ps Nreal aNw aCs fuel b).2 < fuel →
          maxdOf Nreal
            (grLoop rsqrt G C C2i ps Nreal aNw aCs fuel b).1.a_new
            (grLoop rsqrt G C C2i ps Nreal aNw aCs fuel b).1.a_old < convEps)
      ∧ (0 < fuel → 1 ≤ (grLoop rsqrt G C C2i ps Nreal aNw aCs fuel b).2) := by
  intro fuel
  induction fuel with
  | zero =>
    intro b
    refine ⟨by simp [grLoop], by simp [grLoop, iterN], ?_, ?_, ?_⟩
    · intro k hk1 hk2
      simp [grLoop] at hk2
    · intro h
      simp [grLoop] at h
    · intro h
      exact absurd h (by omega)
  | succ fuel ih =>
    intro b
    by_cases hconv : maxdOf Nreal
        (roundFn rsqrt G C C2i ps Nreal aNw aCs b).a_new
        (roundFn rsqrt G C C2i ps Nreal aNw aCs b).a_old < convEps
    · have hev : grLoop rsqrt G C C2i ps Nreal aNw aCs (fuel + 1) b
          = (roundFn rsqrt G C C2i ps Nreal aNw aCs b, 1) := by
        simp only [grLoop]
        rw [if_pos hconv]
      rw [hev]
      exact ⟨by omega, rfl,
        fun k hk1 hk2 => absurd (hk1.trans_lt hk2) (by omega),
        fun _ => hconv, fun _ => le_refl 1⟩
    · have hev : grLoop rsqrt G C C2i ps Nreal aNw aCs (fuel + 1) b
          = ((grLoop rsqrt G C C2i ps Nreal aNw aCs fuel
              (roundFn rsqrt G C C2i ps Nreal aNw aCs b)).1,
             (grLoop rsqrt G C C2i ps Nreal aNw aCs fuel
              (roundFn rsqrt G C C2i ps Nreal aNw aCs b)).2 + 1) := by
        simp only [grLoop]
        rw [if_neg hconv]
      obtain ⟨ih1, ih2, ih3, ih4, _⟩ :=
        ih (roundFn rsqrt G C C2i ps Nreal aNw aCs b)
      rw [hev]
      refine ⟨by omega, ?_, ?_, ?_, fun _ => by omega⟩
      · rw [ih2, iterN_shift]
      · intro k hk1 hk2
        cases k with
        | zero => omega
        | succ k =>
          cases Nat.eq_zero_or_pos k with
          | inl hk0 =>
            subst hk0
            rw [show (0 + 1 : ℕ) = 1 from rfl, show
              iterN rsqrt G C C2i ps Nreal aNw aCs 1 b
                = roundFn rsqrt G C C2i ps Nreal aNw aCs b from rfl]
            exact hconv
          | inr hkpos =>
            have := ih3 k hkpos (by omega)
            rw [iterN_shift] at this
            exact this
      · intro hlt
        exact ih4 (by omega)

/-- C3: the Fixed-Point Iterator of `rebx_gr_implicit` always terminates,
executing between 1 and 10 rounds; the buffer state it leaves behind is
exactly the unconditional iterate after that many rounds (so on
non-convergence at the cap the last computed iterate is silently used); no
round strictly before the stopping round had its residual maximum — the
maximum over bodies of `|new−old|²/|new|²` restricted to `isnormal` values —
below `1e-30`; and whenever the loop stops before the 10-round cap, the
residual maximum of the final round is below `1e-30`. -/
theorem gr_implicit_iteration_spec (rsqrt : ℚ → ℚ) (G : ℚ) (Nreal : ℕ)
    (gi10 : Bool) (ps : List Particle) (prm : GrParams) :
    1 ≤ (implicitLoop rsqrt G Nreal gi10 ps prm).2
    ∧ (implicitLoop rsqrt G Nreal gi10 ps prm).2 ≤ 10
    ∧ (implicitLoop rsqrt G Nreal gi10 ps prm).1
        = iterN rsqrt G prm.c (1 / (prm.c * prm.c)) ps Nreal
            (implicitNewton rsqrt G Nreal gi10 ps prm)
            (implicitConst rsqrt G Nreal ps prm)
            (implicitLoop rsqrt G Nreal gi10 ps prm).2
            (implicitB0 Nreal prm)
    ∧ (∀ k, 1 ≤ k → k < (implicitLoop rsqrt G Nreal gi10 ps prm).2 →
        ¬ maxdOf Nreal
            (iterN rsqrt G prm.c (1 / (prm.c * prm.c)) ps Nreal
              (implicitNewton rsqrt G Nreal gi10 ps prm)
              (implicitConst rsqrt G Nreal ps prm) k
              (implicitB0 Nreal prm)).a_new
            (iterN rsqrt G prm.c (1 / (prm.c * prm.c)) ps Nreal
              (implicitNewton rsqrt G Nreal gi10 ps prm)
              (implicitConst rsqrt G Nreal ps prm) k
              (implicitB0 Nreal prm)).a_old < convEps)
    ∧ ((implicitLoop rsqrt G Nreal gi10 ps prm).2 < 10 →
        maxdOf Nreal (implicitLoop rsqrt G Nreal gi10 ps prm).1.a_new
          (implicitLoop rsqrt G Nreal gi10 ps prm).1.a_old < convEps) := by
  obtain ⟨h1, h2, h3, h4, h5⟩ := grLoop_spec rsqrt G prm.c
    (1 / (prm.c * prm.c)) ps Nreal
    (implicitNewton rsqrt G Nreal gi10 ps prm)
    (implicitConst rsqrt G Nreal ps prm) 10 (implicitB0 Nreal prm)
  exact ⟨h5 (by omega), h1, h2, h3, h4⟩

/-! Congruence with respect to pre-call buffer contents: every buffer slot
read below `Nreal` was written during the same call, so outputs agree for
any two initial buffer contents. -/

/-- Two buffers agree on every slot below `N`. -/
def EqB (N : ℕ) (f g : ℕ → Vec3) : Prop := ∀ i, i < N → f i = g i

lemma memsetN_EqB (N : ℕ) (f g : ℕ → Vec3) :
    EqB N (memsetN N f) (memsetN N g) := by
  intro i hi
  simp [memsetN, hi]

lemma newtonSnap_congr (rsqrt : ℚ → ℚ) (G : ℚ) (Nreal : ℕ) (gi10 : Bool)
    (ps : List Particle) (buf buf' : ℕ → Vec3) :
    EqB Nreal (newtonSnap rsqrt G Nreal gi10 ps buf)
      (newtonSnap rsqrt G Nreal gi10 ps buf') := by
  intro i hi
  by_cases h : (gi10 : Prop) ∧ 1 < Nreal
  · simp only [newtonSnap, if_pos h, fupd]
    split_ifs <;> simp [hi]
  · simp only [newtonSnap, if_neg h]
    simp [hi]

lemma aConstBuf_congr (rsqrt : ℚ → ℚ) (G C2i : ℚ) (Nreal : ℕ)
    (ps : List Particle) (buf buf' : ℕ → Vec3) :
    EqB Nreal (aConstBuf rsqrt G C2i Nreal ps buf)
      (aConstBuf rsqrt G C2i Nreal ps buf') := by
  intro i hi
  simp [aConstBuf, hi]

lemma iterPairStep_congr (rsqrt : ℚ → ℚ) (G C C2i : ℚ) (ps : List Particle)
    {N : ℕ} {aNw aNw' aCs aCs' aOld aOld' an an' : ℕ → Vec3}
    (hNw : EqB N aNw aNw') (hCs : EqB N aCs aCs') (hOld : EqB N aOld aOld')
    (han : EqB N an an') {i j : ℕ} (hi : i < N) (hj : j < N) :
    EqB N (iterPairStep rsqrt G C C2i ps aNw aCs aOld an i j)
      (iterPairStep rsqrt G C C2i ps aNw' aCs' aOld' an' i j) := by
  intro t ht
  simp only [iterPairStep, fupd]
  rw [hNw i hi, hNw j hj, hCs i hi, hCs j hj, hOld i hi, hOld j hj,
    han i hi, han j hj]
  split_ifs <;> simp [han t ht]

lemma foldl_EqB {N : ℕ} (f g : (ℕ → Vec3) → ℕ → (ℕ → Vec3)) :
    ∀ (l : List ℕ),
      (∀ an an' i, i ∈ l → EqB N an an' → EqB N (f an i) (g an' i)) →
      ∀ an an', EqB N an an' → EqB N (l.foldl f an) (l.foldl g an') := by
  intro l
  induction l with
  | nil => intro _ an an' h; exact h
  | cons i rest ih =>
    intro hstep an an' h
    rw [List.foldl_cons, List.foldl_cons]
    exact ih (fun a a' j hj haa => hstep a a' j (by simp [hj]) haa) _ _
      (hstep an an' i (by simp) h)

lemma pairwiseUpdate_congr (rsqrt : ℚ → ℚ) (G C C2i : ℚ)
    (ps : List Particle) (N : ℕ) {aNw aNw' aCs aCs' aOld aOld' an0 an0'}
    (hNw : EqB N aNw aNw') (hCs : EqB N aCs aCs') (hOld : EqB N aOld aOld')
    (han : EqB N an0 an0') :
    EqB N (pairwiseUpdate rsqrt G C C2i ps N aNw aCs aOld an0)
      (pairwiseUpdate rsqrt G C C2i ps N aNw' aCs' aOld' an0') := by
  unfold pairwiseUpdate
  apply foldl_EqB
  · intro an an' i hi hEq
    have hiN : i < N := List.mem_range.mp hi
    apply foldl_EqB
    · intro a a' j hj haa
      have hjN : j < N := by
        have := List.mem_range'_1.mp hj
        omega
      exact iterPairStep_congr rsqrt G C C2i ps hNw hCs hOld haa hiN hjN
    · exact hEq
  · exact han

lemma maxdOf_congr {N : ℕ} {an an' ao ao' : ℕ → Vec3}
    (h1 : EqB N an an') (h2 : EqB N ao ao') :
    maxdOf N an ao = maxdOf N an' ao' := by
  unfold maxdOf
  apply foldl_congr_fn
  intro x i hi
  have hiN : i < N := List.mem_range.mp hi
  rw [h1 i hiN, h2 i hiN]

lemma roundFn_congr (rsqrt : ℚ → ℚ) (G C C2i : ℚ) (ps : List Particle)
    (N : ℕ) {aNw aNw' aCs aCs' : ℕ → Vec3} {b b' : IterBufs}
    (hNw : EqB N aNw aNw') (hCs : EqB N aCs aCs')
    (h : EqB N b.a_new b'.a_new) :
    EqB N (roundFn rsqrt G C C2i ps N aNw aCs b).a_new
        (roundFn rsqrt G C C2i ps N aNw' aCs' b').a_new
    ∧ EqB N (roundFn rsqrt G C C2i ps N aNw aCs b).a_old
        (roundFn rsqrt G C C2i ps N aNw' aCs' b').a_old := by
  constructor
  · exact pairwiseUpdate_congr rsqrt G C C2i ps N hNw hCs h
      (memsetN_EqB N b.a_old b'.a_old)
  · exact h

lemma grLoop_congr (rsqrt : ℚ → ℚ) (G C C2i : ℚ) (ps : List Particle)
    (N : ℕ) {aNw aNw' aCs aCs' : ℕ → Vec3}
    (hNw : EqB N aNw aNw') (hCs : EqB N aCs aCs') :
    ∀ (fuel : ℕ) (b b' : IterBufs), EqB N b.a_new b'.a_new →
      EqB N (grLoop rsqrt G C C2i ps N aNw aCs fuel b).1.a_new
          (grLoop rsqrt G C C2i ps N aNw' aCs' fuel b').1.a_new
      ∧ (grLoop rsqrt G C C2i ps N aNw aCs fuel b).2
          = (grLoop rsqrt G C C2i ps N aNw' aCs' fuel b').2 := by
  intro fuel
  induction fuel with
  | zero => intro b b' h; exact ⟨h, rfl⟩
  | succ fuel ih =>
    intro b b' h
    obtain ⟨hrnew, hrold⟩ := roundFn_congr rsqrt G C C2i ps N hNw hCs h
    have hmaxd : maxdOf N (roundFn rsqrt G C C2i ps N aNw aCs b).a_new
        (roundFn rsqrt G C C2i ps N aNw aCs b).a_old
        = maxdOf N (roundFn rsqrt G C C2i ps N aNw' aCs' b').a_new
          (roundFn rsqrt G C C2i ps N aNw' aCs' b').a_old :=
      maxdOf_congr hrnew hrold
    by_cases hc : maxdOf N (roundFn rsqrt G C C2i ps N aNw aCs b).a_new
        (roundFn rsqrt G C C2i ps N aNw aCs b).a_old < convEps
    · have hc' : maxdOf N (roundFn rsqrt G C C2i ps N aNw' aCs' b').a_new
          (roundFn rsqrt G C C2i ps N aNw' aCs' b').a_old < convEps := by
        rw [← hmaxd]; exact hc
      simp only [grLoop]
      rw [if_pos hc, if_pos hc']
      exact ⟨hrnew, rfl⟩
    · have hc' : ¬ maxdOf N (roundFn rsqrt G C C2i ps N aNw' aCs' b').a_new
          (roundFn rsqrt G C C2i ps N aNw' aCs' b').a_old < convEps := by
        rw [← hmaxd]; exact hc
      simp only [grLoop]
      rw [if_neg hc, if_neg hc']
      obtain ⟨ih1, ih2⟩ := ih (roundFn rsqrt G C C2i ps N aNw aCs b)
        (roundFn rsqrt G C C2i ps N aNw' aCs' b') hrnew
      exact ⟨ih1, by rw [ih2]⟩

lemma combineAux_congr (N : ℕ) (f g : ℕ → Vec3)
    (hf : ∀ i, i < N → f i = g i) :
    ∀ (l : List Particle) (start : ℕ),
      combineAux N f start l = combineAux N g start l := by
  intro l
  induction l with
  | nil => intro start; rfl
  | cons p rest ih =>
    intro start
    simp only [combineAux]
    rw [ih (start + 1)]
    by_cases h : start < N
    · rw [if_pos h, if_pos h, hf start h]
    · rw [if_neg h, if_neg h]

/-- C9: the particle output of `rebx_gr_implicit` is the same for every
initial content of the four buffer-pool arrays (and any capacity field):
every buffer slot read during a call below `N_real` was written during that
same call.  In particular two calls in immediate succession with identical
particle state and reset accelerations produce identical corrections,
whatever the first call left in the buffers. -/
theorem gr_implicit_buffer_independence (rsqrt : ℚ → ℚ) (G : ℚ)
    (Nreal : ℕ) (gi10 : Bool) (ps : List Particle) (c0 : ℚ) (n1 n2 : ℕ)
    (f1 f2 f3 f4 g1 g2 g3 g4 : ℕ → Vec3) :
    (rebx_gr_implicit rsqrt G Nreal gi10 ps ⟨c0, n1, f1, f2, f3, f4⟩).1
      = (rebx_gr_implicit rsqrt G Nreal gi10 ps ⟨c0, n2, g1, g2, g3, g4⟩).1
    := by
  have hNw := newtonSnap_congr rsqrt G Nreal gi10 ps f2 g2
  have hCs := aConstBuf_congr rsqrt G (1 / (c0 * c0)) Nreal ps f1 g1
  obtain ⟨hlnew, _⟩ := grLoop_congr rsqrt G c0 (1 / (c0 * c0)) ps Nreal
    hNw hCs 10
    { a_new := memsetN Nreal f3, a_old := f4 }
    { a_new := memsetN Nreal g3, a_old := g4 }
    (memsetN_EqB Nreal f3 g3)
  show combineAux Nreal _ 0 ps = combineAux Nreal _ 0 ps
  apply combineAux_congr
  intro i hi
  show ((implicitLoop rsqrt G Nreal gi10 ps
      ⟨c0, n1, f1, f2, f3, f4⟩).1.a_new i).add
        (implicitConst rsqrt G Nreal ps ⟨c0, n1, f1, f2, f3, f4⟩ i)
    = ((implicitLoop rsqrt G Nreal gi10 ps
        ⟨c0, n2, g1, g2, g3, g4⟩).1.a_new i).add
          (implicitConst rsqrt G Nreal ps ⟨c0, n2, g1, g2, g3, g4⟩ i)
  simp only [implicitLoop, implicitNewton, implicitConst, implicitB0]
  rw [hlnew i hi, hCs i hi]

/-- C10: in the run of the iteration from the call's initial state, at the
start of every round's pairwise-update phase the new-iterate buffer is zero
in its first `N_real` slots and the old-iterate buffer is exactly the
previous round's iterate buffer; the iterate before round 0 is zero in its
first `N_real` slots whatever the pool held before the call; and one
round's output below `N_real` depends only on the previous iterate's slots
below `N_real` (not on any older buffer contents). -/
theorem gr_implicit_round_structure (rsqrt : ℚ → ℚ) (G : ℚ) (Nreal : ℕ)
    (gi10 : Bool) (ps : List Particle) (prm : GrParams) :
    (∀ k i, i < Nreal →
      (preRound Nreal (iterN rsqrt G prm.c (1 / (prm.c * prm.c)) ps Nreal
        (implicitNewton rsqrt G Nreal gi10 ps prm)
        (implicitConst rsqrt G Nreal ps prm) k
        (implicitB0 Nreal prm))).a_new i = Vec3.zero)
    ∧ (∀ k,
      (preRound Nreal (iterN rsqrt G prm.c (1 / (prm.c * prm.c)) ps Nreal
        (implicitNewton rsqrt G Nreal gi10 ps prm)
        (implicitConst rsqrt G Nreal ps prm) k
        (implicitB0 Nreal prm))).a_old
        = (iterN rsqrt G prm.c (1 / (prm.c * prm.c)) ps Nreal
            (implicitNewton rsqrt G Nreal gi10 ps prm)
            (implicitConst rsqrt G Nreal ps prm) k
            (implicitB0 Nreal prm)).a_new)
    ∧ (∀ i, i < Nreal → (implicitB0 Nreal prm).a_new i = Vec3.zero)
    ∧ (∀ b b' : IterBufs, EqB Nreal b.a_new b'.a_new →
        EqB Nreal
          (roundFn rsqrt G prm.c (1 / (prm.c * prm.c)) ps Nreal
            (implicitNewton rsqrt G Nreal gi10 ps prm)
            (implicitConst rsqrt G Nreal ps prm) b).a_new
          (roundFn rsqrt G prm.c (1 / (prm.c * prm.c)) ps Nreal
            (implicitNewton rsqrt G Nreal gi10 ps prm)
            (implicitConst rsqrt G Nreal ps prm) b').a_new) := by
  refine ⟨?_, ?_, ?_, ?_⟩
  · intro k i hi
    exact memsetN_lt Nreal _ i hi
  · intro k
    rfl
  · intro i hi
    exact memsetN_lt Nreal prm.a_new i hi
  · intro b b' h
    exact (roundFn_congr rsqrt G prm.c (1 / (prm.c * prm.c)) ps Nreal
      (fun i hi => rfl) (fun i hi => rfl) h).1

/-! Concrete witnesses discharging the hypotheses of the theorems above. -/

theorem gr_twobody_spec_witness :
    2 ≤ ([pEx0, pEx1] : List Particle).length
    ∧ ((∀ i, 0 < i → i < 2 →
          (rebx_gr (fun q => q) 1 10 2 [pEx0, pEx1]).getD i default
            = addA ([pEx0, pEx1].getD i default)
                (grDaSpec (fun q => q) 1 10 ([pEx0, pEx1].getD 0 default)
                  ([pEx0, pEx1].getD i default)))
        ∧ (rebx_gr (fun q => q) 1 10 2 [pEx0, pEx1]).getD 0 default
            = (List.range' 1 (2 - 1)).foldl (fun p i => subA p (Vec3.smul
                (([pEx0, pEx1].getD i default).m
                  / ([pEx0, pEx1].getD 0 default).m)
                (grDaSpec (fun q => q) 1 10 ([pEx0, pEx1].getD 0 default)
                  ([pEx0, pEx1].getD i default))))
                ([pEx0, pEx1].getD 0 default)) :=
  ⟨by decide, gr_twobody_spec (fun q => q) 1 10 2 [pEx0, pEx1] (by decide)⟩

theorem gr_potential_spec_witness :
    2 ≤ ([pEx0, pEx1] : List Particle).length
    ∧ ((rebx_gr_potential 1 10 2 [pEx0, pEx1]).getD 0 default
          = [pEx0, pEx1].getD 0 default
        ∧ ∀ i, 0 < i → i < 2 →
            (rebx_gr_potential 1 10 2 [pEx0, pEx1]).getD i default
              = subA ([pEx0, pEx1].getD i default)
                  (potVecSpec 1 10 ([pEx0, pEx1].getD 0 default)
                    ([pEx0, pEx1].getD i default))) :=
  ⟨by decide, gr_potential_spec 1 10 2 [pEx0, pEx1] (by decide)⟩

theorem newton_snapshot_assign_witness :
    1 < 2
    ∧ (implicitNewton (fun q => q) 1 2 true [pEx0, pEx1] prmEx 0
          = mutual10 (fun q => q) 1 [pEx0, pEx1]
              ([pEx0, pEx1].getD 1 default).m
        ∧ implicitNewton (fun q => q) 1 2 true [pEx0, pEx1] prmEx 1
          = mutual10 (fun q => q) 1 [pEx0, pEx1]
              ([pEx0, pEx1].getD 0 default).m) :=
  ⟨by decide,
   newton_snapshot_assign (fun q => q) 1 2 [pEx0, pEx1] prmEx (by decide)⟩

theorem gr_implicit_combine_spec_witness :
    ((0 : ℕ) < 1 ∧ 0 < ([pEx0] : List Particle).length)
    ∧ (rebx_gr_implicit (fun q => q) 1 1 false [pEx0] prmEx).1.getD 0 default
        = addA ([pEx0].getD 0 default)
            (((implicitLoop (fun q => q) 1 1 false [pEx0]
                prmEx).1.a_new 0).add
              (implicitConst (fun q => q) 1 1 [pEx0] prmEx 0)) :=
  ⟨⟨by decide, by decide⟩,
   gr_implicit_combine_spec (fun q => q) 1 1 false [pEx0] prmEx 0
     (by decide) (by decide)⟩
